import Mathlib

/-!
Verification development for the DraftKings NFL scraper (src/main.go).

The Go program has three pure cores, embedded here:
 - `parseOdds`   : odds/line text normalization (src/main.go, parseOdds),
 - `parseMarkets`: extraction of Market records from a parsed document
   (src/main.go, parseMarkets),
 - `printMarkets`: the per-cycle console report (src/main.go, printMarkets).

External collaborators are modelled at their interfaces:
 - goquery document parsing and CSS selection are abstracted into a
   `ParsedDoc` value (either a parse failure or a list of game wrappers,
   each carrying its team-label texts and button texts in document order);
 - `strconv.ParseFloat` is modelled by `parseFloatL`, covering the finite
   decimal fragment (optional ASCII sign, digits, optional fraction,
   optional exponent).  Hexadecimal floats, "Inf"/"NaN", digit-group
   underscores and range overflow are outside the modelled fragment; none
   of the claims depend on them, and both sides of every comparison made
   below use the same model.
Numeric values use `ℚ` (exact for every input appearing in the claims;
float rounding is irrelevant to the stated properties).
-/

namespace Scrapport

/-- Go `unicode.IsSpace`, used by `strings.TrimSpace`: ASCII whitespace,
NEL, NBSP and the Unicode space separators. -/
def isGoSpace (c : Char) : Bool :=
  c = ' ' || c = '\t' || c = '\n' || c.toNat = 11 || c.toNat = 12 ||
  c = '\r' || c.toNat = 0x85 || c.toNat = 0xA0 || c.toNat = 0x1680 ||
  (0x2000 ≤ c.toNat && c.toNat ≤ 0x200A) || c.toNat = 0x2028 ||
  c.toNat = 0x2029 || c.toNat = 0x202F || c.toNat = 0x205F || c.toNat = 0x3000

/-- Go `strings.TrimSpace` on a character list: drop leading and trailing
whitespace. -/
def trimL (s : List Char) : List Char :=
  ((s.dropWhile isGoSpace).reverse.dropWhile isGoSpace).reverse

/-- `strings.TrimSpace` lifted to `String`. -/
def trimS (s : String) : String := ⟨trimL s.data⟩

/-- Does the list start with the character `c`?  Models
`strings.HasPrefix` for the one-character (one-scalar) prefixes used by
`parseOdds`. -/
def startsWithC (s : List Char) (c : Char) : Bool :=
  match s with
  | [] => false
  | x :: _ => x = c

/-- Remove a leading `c` if present, else return the list unchanged.
Models `strings.TrimPrefix` for one-character prefixes. -/
def trimPrefixC (s : List Char) (c : Char) : List Char :=
  match s with
  | [] => []
  | x :: r => if x = c then r else x :: r

/-- Numeric value of a decimal digit list (most significant first). -/
def natOfDigits (ds : List Char) : Nat :=
  ds.foldl (fun a c => a * 10 + (c.toNat - '0'.toNat)) 0

/-- `m * 10^(e-f)` as a rational: the value of a decimal literal with
integer-and-fraction digits `m`, `f` fraction digits, and exponent `e`. -/
def ratOfSci (m : ℤ) (e : ℤ) (f : ℕ) : ℚ :=
  let t : ℤ := e - (f : ℤ)
  if 0 ≤ t then ((m * 10 ^ t.toNat : ℤ) : ℚ)
  else Rat.divInt m (10 ^ (-t).toNat)

/-- Model of `strconv.ParseFloat(s, 64)` on its finite decimal fragment:
`[+-] digits [. digits] [(e|E) [+-] digits]`, at least one mantissa digit,
no surrounding whitespace, whole-string match; `none` on any other
input. -/
def parseFloatL (s : List Char) : Option ℚ :=
  let signRest : Bool × List Char :=
    match s with
    | '+' :: r => (false, r)
    | '-' :: r => (true, r)
    | _ => (false, s)
  let neg := signRest.1
  let ipRest := signRest.2.span (fun c => c.isDigit)
  let ip := ipRest.1
  let fpRest : List Char × List Char :=
    match ipRest.2 with
    | '.' :: r => r.span (fun c => c.isDigit)
    | other => ([], other)
  let fp := fpRest.1
  let afterFrac : List Char :=
    match ipRest.2 with
    | '.' :: r => (r.span (fun c => c.isDigit)).2
    | other => other
  if ip.isEmpty && fp.isEmpty then none
  else
    let mag : ℤ := (natOfDigits (ip ++ fp) : ℤ)
    let mant : ℤ := if neg then -mag else mag
    match afterFrac with
    | [] => some (ratOfSci mant 0 fp.length)
    | e :: r =>
      if e = 'e' || e = 'E' then
        let esignRest : Bool × List Char :=
          match r with
          | '+' :: rr => (false, rr)
          | '-' :: rr => (true, rr)
          | _ => (false, r)
        let eds := esignRest.2.span (fun c => c.isDigit)
        if eds.1.isEmpty || !eds.2.isEmpty then none
        else
          let ev : ℤ := (natOfDigits eds.1 : ℤ)
          some (ratOfSci mant (if esignRest.1 then -ev else ev) fp.length)
      else none

/-- The sign-stripping phase of `parseOdds` on the already-trimmed text:
trim at most one `"+"`, then at most one ASCII `"-"`, then at most one
Unicode minus `"−"`, in that order (src/main.go lines 148-150). -/
def strippedOdds (t : List Char) : List Char :=
  trimPrefixC (trimPrefixC (trimPrefixC t '+') '-') '−'

/-- `parseOdds` after `strings.TrimSpace`: the body of src/main.go lines
142-160 applied to the trimmed text `t`. -/
def parseOddsCore (t : List Char) : ℚ :=
  if t.isEmpty then 0
  else
    let isMinus := startsWithC t '-' || startsWithC t '−'
    match parseFloatL (strippedOdds t) with
    | none => 0
    | some v => if isMinus then -v else v

/-- Go `parseOdds` (src/main.go lines 140-161) on a character list. -/
def parseOddsL (s : List Char) : ℚ :=
  parseOddsCore (trimL s)

/-- Go `parseOdds`: normalize raw odds/line text to a signed number. -/
def parseOdds (s : String) : ℚ := parseOddsL s.data

/-- Written after the spec's words (spec.md §4.1), for comparison with
`parseOddsCore`: after whitespace trimming, trim EXACTLY ONE of the three
recognized prefixes (`+`, ASCII `-`, Unicode minus) before numeric
conversion, and negate the parsed magnitude if and only if the trimmed
prefix was a negativity marker; parse failure falls back to `0`. -/
def parseOddsSpecCore (t : List Char) : ℚ :=
  if t.isEmpty then 0
  else
    let isMinus := startsWithC t '-' || startsWithC t '−'
    let rest :=
      if startsWithC t '+' then trimPrefixC t '+'
      else if startsWithC t '-' then trimPrefixC t '-'
      else if startsWithC t '−' then trimPrefixC t '−'
      else t
    match parseFloatL rest with
    | none => 0
    | some v => if isMinus then -v else v

/-- The spec-side odds normalizer: trim whitespace, then
`parseOddsSpecCore`. -/
def parseOddsSpec (s : String) : ℚ := parseOddsSpecCore (trimL s.data)

/-- Is `c` one of the three recognized sign prefixes of `parseOdds`? -/
def signChar (c : Char) : Bool := c = '+' || c = '-' || c = '−'

/-- The text carries at most one leading sign marker: its first two
characters are not both sign prefixes. -/
def atMostOneSignCore (t : List Char) : Bool :=
  match t with
  | c :: d :: _ => !(signChar c && signChar d)
  | _ => true

/-- The trimmed input carries at most one leading sign marker.  On this
domain the spec's "trim exactly one prefix" reading and the code
agree. -/
def atMostOneSign (s : List Char) : Bool :=
  atMostOneSignCore (trimL s)

/-- A market button inside a game wrapper: the text of its
`.cb-market__button-points` sub-node and of its `.cb-market__button-odds`
sub-node (goquery `.Find(...).Text()`, which yields `""` when the
sub-node is absent). -/
structure Button where
  points : String
  odds : String
deriving DecidableEq

/-- A `.cb-market__template` game wrapper: the texts of its
`.cb-market__label-inner` team-label nodes and its `.cb-market__button`
buttons, both in document order. -/
structure GameWrapper where
  labels : List String
  buttons : List Button
deriving DecidableEq

/-- Outcome of `goquery.NewDocumentFromReader` plus the two CSS
selections of `parseMarkets`: either the markup could not be parsed as a
document at all, or it yields the list of game wrappers in document
order. -/
inductive ParsedDoc where
  | failure
  | ok (wrappers : List GameWrapper)

/-- The betting-market record built per button (src/main.go, type
`Market`). -/
structure Market where
  game : String
  side : String
  odds : ℚ
  line : ℚ
  betType : String
deriving DecidableEq

/-- A throwaway `Market` used only as the default of `List.getD`. -/
def defaultMarket : Market := ⟨"", "", 0, 0, ""⟩

/-- `var betTypes = []string{"Spread", "Total", "Moneyline"}`
(src/main.go line 30). -/
def betTypes : List String := ["Spread", "Total", "Moneyline"]

/-- The `Market` built for the `j`-th button (0-indexed) of a wrapper
whose game description is `game` (src/main.go lines 112-133):
`betType = betTypes[j % 3]`, side `"over"` switching to `"under"` at
`j ≥ 3`, line and odds through `parseOdds`. -/
def buttonMarket (game : String) (j : Nat) (b : Button) : Market :=
  { game := game
    side := if j ≥ 3 then "under" else "over"
    odds := parseOdds b.odds
    line := parseOdds b.points
    betType := betTypes.getD (j % 3) "" }

/-- The `.Each` loop over a wrapper's buttons, carrying the running
index `j`. -/
def marketsOfButtons (game : String) : Nat → List Button → List Market
  | _, [] => []
  | j, b :: bs => buttonMarket game j b :: marketsOfButtons game (j + 1) bs

/-- The per-wrapper body of `parseMarkets` (src/main.go lines 92-135):
`teamA`/`teamB` are the trimmed texts of the first two team labels
(labels beyond the second are ignored by the `switch`); if either is
empty the wrapper is skipped; otherwise one `Market` per button. -/
def wrapperMarkets (w : GameWrapper) : List Market :=
  let teamA := trimS (w.labels.getD 0 "")
  let teamB := trimS (w.labels.getD 1 "")
  if teamA = "" ∨ teamB = "" then []
  else marketsOfButtons (teamA ++ " vs " ++ teamB) 0 w.buttons

/-- Go `parseMarkets` (src/main.go lines 83-138) on the parsed document:
on document-parse failure it logs and returns the empty (nil) slice;
otherwise it appends every wrapper's markets in document order. -/
def parseMarkets : ParsedDoc → List Market
  | .failure => []
  | .ok ws => (ws.map wrapperMarkets).flatten

/-- `parseMarkets` as a function of the markup string, with the external
HTML parser abstracted as a function `htmlToDoc` (goquery parsing and
selection are deterministic in the markup; Go's own code iterates only
slices, whose order is fixed). -/
def parseMarketsHtml (htmlToDoc : String → ParsedDoc) (html : String) : List Market :=
  parseMarkets (htmlToDoc html)

/-- One line of the console report of `printMarkets`, with the `fmt`
formatting of the external printing library abstracted into
constructors. -/
inductive ReportLine where
  | noMarkets
  | header (count : Nat)
  | gameTitle (game : String)
  | separator (width : Nat)
  | entryWithLine (betType side : String) (line odds : ℚ)
  | entryNoLine (betType side : String) (odds : ℚ)
  | blank
deriving DecidableEq

/-- The report line printed for one market (src/main.go lines 182-189):
the line value is included exactly when it is non-zero. -/
def entryLine (m : Market) : ReportLine :=
  if m.line ≠ 0 then .entryWithLine m.betType m.side m.line m.odds
  else .entryNoLine m.betType m.side m.odds

/-- One step of building `gameMap` (src/main.go lines 172-175):
`gameMap[m.Game] = append(gameMap[m.Game], m)`, modelled as an
association list keyed by game.  Go iterates the map in unspecified
order; the association list fixes first-insertion order, and no claim
below depends on the group order. -/
def insertGrouped : List (String × List Market) → Market → List (String × List Market)
  | [], m => [(m.game, [m])]
  | (g, gms) :: rest, m =>
    if g = m.game then (g, gms ++ [m]) :: rest
    else (g, gms) :: insertGrouped rest m

/-- `gameMap` built from the whole market list. -/
def groupByGame (ms : List Market) : List (String × List Market) :=
  ms.foldl insertGrouped []

/-- Go `printMarkets` (src/main.go lines 163-193) as the list of report
lines it emits: `"No markets found"` when the collection is empty,
otherwise a count header followed by, per game, its title, a dash
separator as wide as the title's byte length, one entry per market, and
a blank line. -/
def printMarkets (ms : List Market) : List ReportLine :=
  if ms.isEmpty then [.noMarkets]
  else
    ReportLine.header ms.length ::
      ((groupByGame ms).map (fun p =>
        ReportLine.gameTitle p.1 :: ReportLine.separator p.1.utf8ByteSize ::
          (p.2.map entryLine ++ [ReportLine.blank]))).flatten

end Scrapport

namespace Scrapport

/-- A throwaway `Button` used only as the default of `List.getD`. -/
def defaultButton : Button := ⟨"", ""⟩

theorem marketsOfButtons_length (g : String) (bs : List Button) :
    ∀ j0 : Nat, (marketsOfButtons g j0 bs).length = bs.length := by
  induction bs with
  | nil => intro j0; rfl
  | cons b tl ih => intro j0; simpa [marketsOfButtons] using ih (j0 + 1)

theorem marketsOfButtons_getD (g : String) (bs : List Button) :
    ∀ j0 j : Nat, j < bs.length →
      (marketsOfButtons g j0 bs).getD j defaultMarket
        = buttonMarket g (j0 + j) (bs.getD j defaultButton) := by
  induction bs with
  | nil => intro j0 j h; simp at h
  | cons b tl ih =>
    intro j0 j h
    cases j with
    | zero => simp [marketsOfButtons]
    | succ j =>
      have harith : j0 + (j + 1) = j0 + 1 + j := by omega
      have := ih (j0 + 1) j (by simpa using h)
      simpa [marketsOfButtons, harith] using this

theorem mem_marketsOfButtons_game (g : String) (m : Market) (bs : List Button) :
    ∀ j0 : Nat, m ∈ marketsOfButtons g j0 bs → m.game = g := by
  induction bs with
  | nil => intro j0 h; simp [marketsOfButtons] at h
  | cons b tl ih =>
    intro j0 h
    rcases List.mem_cons.mp h with h | h
    · subst h; rfl
    · exact ih (j0 + 1) h

theorem wrapperMarkets_cases (w : GameWrapper) :
    wrapperMarkets w = [] ∨
      wrapperMarkets w
        = marketsOfButtons
            (trimS (w.labels.getD 0 "") ++ " vs " ++ trimS (w.labels.getD 1 ""))
            0 w.buttons := by
  unfold wrapperMarkets
  dsimp only
  split
  · exact Or.inl rfl
  · exact Or.inr rfl

/-- C1: for every game wrapper, the Market built from its j-th button
(0-indexed) has `betType` drawn from the fixed vocabulary
`["Spread", "Total", "Moneyline"]` at index `j mod 3`, and side `"over"`
for `j < 3` and `"under"` otherwise. -/
theorem betType_side_positional (w : GameWrapper) (j : Nat)
    (h : j < (wrapperMarkets w).length) :
    ((wrapperMarkets w).getD j defaultMarket).betType
        = ["Spread", "Total", "Moneyline"].getD (j % 3) "" ∧
    ((wrapperMarkets w).getD j defaultMarket).side
        = if j < 3 then "over" else "under" := by
  rcases wrapperMarkets_cases w with he | he
  · rw [he] at h; simp at h
  · rw [he] at h ⊢
    rw [marketsOfButtons_length] at h
    rw [marketsOfButtons_getD _ _ 0 j h]
    constructor
    · simp [buttonMarket, betTypes]
    · rcases Nat.lt_or_ge j 3 with h3 | h3
      · simp [buttonMarket, h3, Nat.not_le.mpr h3]
      · simp [buttonMarket, h3, Nat.not_lt.mpr h3]

/-- C1 witness: a wrapper with two team labels and six buttons, checked
at button index 4 (side "under", bet type "Total"). -/
theorem betType_side_positional_witness :
    ((wrapperMarkets ⟨["A", "B"],
        [⟨"", ""⟩, ⟨"", ""⟩, ⟨"", ""⟩, ⟨"", ""⟩, ⟨"", ""⟩, ⟨"", ""⟩]⟩).getD 4
          defaultMarket).betType
        = ["Spread", "Total", "Moneyline"].getD (4 % 3) "" ∧
    ((wrapperMarkets ⟨["A", "B"],
        [⟨"", ""⟩, ⟨"", ""⟩, ⟨"", ""⟩, ⟨"", ""⟩, ⟨"", ""⟩, ⟨"", ""⟩]⟩).getD 4
          defaultMarket).side
        = if 4 < 3 then "over" else "under" :=
  betType_side_positional _ 4 (by decide)

/-- C2: the concrete odds-normalization vectors: empty input and
unparseable input yield 0, a plus sign is stripped, and both the ASCII
minus and the Unicode minus negate. -/
theorem parseOdds_vectors :
    parseOdds "" = 0 ∧ parseOdds "+150" = 150 ∧ parseOdds "-110" = -110 ∧
    parseOdds "−110" = -110 ∧ parseOdds "abc" = 0 := by decide

/-- C6: a markup that cannot be parsed as a document yields the empty
market list, exactly as a well-formed document with zero game wrappers
does; the two cases are indistinguishable in the result. -/
theorem parseMarkets_failure_and_empty :
    parseMarkets ParsedDoc.failure = [] ∧
    parseMarkets (ParsedDoc.ok []) = [] ∧
    parseMarkets ParsedDoc.failure = parseMarkets (ParsedDoc.ok []) :=
  ⟨rfl, rfl, rfl⟩

/-- C8: market extraction is a pure function of the markup: two runs on
identical markup strings yield identical (order-preserved) market
sequences, for any behaviour of the external HTML parser. -/
theorem parseMarketsHtml_deterministic (f : String → ParsedDoc)
    (h1 h2 : String) (heq : h1 = h2) :
    parseMarketsHtml f h1 = parseMarketsHtml f h2 := by
  rw [heq]

/-- C8 witness: two runs on the same concrete markup string agree. -/
theorem parseMarketsHtml_deterministic_witness :
    parseMarketsHtml (fun _ => ParsedDoc.ok []) "<html></html>"
      = parseMarketsHtml (fun _ => ParsedDoc.ok []) "<html></html>" :=
  parseMarketsHtml_deterministic (fun _ => ParsedDoc.ok [])
    "<html></html>" "<html></html>" rfl

/-- C4: the odds normalizer never signals an error: whenever the trimmed
input is empty, or the text remaining after sign stripping fails the
decimal parse, the result is the silent fallback 0. -/
theorem parseOdds_silent_fallback (s : String)
    (h : trimL s.data = [] ∨ parseFloatL (strippedOdds (trimL s.data)) = none) :
    parseOdds s = 0 := by
  unfold parseOdds parseOddsL parseOddsCore
  rcases h with h | h
  · rw [h]; rfl
  · split
    · rfl
    · rw [h]

/-- C4 witness: "abc" fails the decimal parse and falls back to 0. -/
theorem parseOdds_silent_fallback_witness : parseOdds "abc" = 0 :=
  parseOdds_silent_fallback "abc" (Or.inr (by decide))

/-- C5: a wrapper with fewer than two team labels contributes zero
records, and labels beyond the first two never influence the output. -/
theorem wrapperMarkets_label_count (w : GameWrapper) :
    (w.labels.length < 2 → wrapperMarkets w = []) ∧
    wrapperMarkets w = wrapperMarkets ⟨w.labels.take 2, w.buttons⟩ := by
  obtain ⟨ls, bs⟩ := w
  constructor
  · intro h
    match ls, h with
    | [], _ => rfl
    | [a], _ =>
      unfold wrapperMarkets
      dsimp only
      rw [if_pos]
      right
      rfl
  · match ls with
    | [] => rfl
    | [a] => rfl
    | a :: b :: tl => rfl

/-- C5 witness: a wrapper with a single team label and one button yields
no markets. -/
theorem wrapperMarkets_label_count_witness :
    wrapperMarkets ⟨["A"], [⟨"+100", "-110"⟩]⟩ = [] :=
  (wrapperMarkets_label_count ⟨["A"], [⟨"+100", "-110"⟩]⟩).1 (by decide)

/-- C7: every market produced from a wrapper with at least two team
labels carries the game identifier "teamA vs teamB" built from the
trimmed texts of the first two labels. -/
theorem wrapperMarkets_game_id (w : GameWrapper) (m : Market)
    (_hlen : 2 ≤ w.labels.length) (hm : m ∈ wrapperMarkets w) :
    m.game = trimS (w.labels.getD 0 "") ++ " vs " ++ trimS (w.labels.getD 1 "") := by
  rcases wrapperMarkets_cases w with he | he
  · rw [he] at hm; simp at hm
  · rw [he] at hm
    exact mem_marketsOfButtons_game _ m w.buttons 0 hm

/-- C7 witness: the single market of a two-label one-button wrapper has
the expected game identifier. -/
theorem wrapperMarkets_game_id_witness :
    (buttonMarket ("A" ++ " vs " ++ "B") 0 ⟨"", ""⟩).game
      = trimS ((["A", "B"] : List String).getD 0 "")
          ++ " vs " ++ trimS ((["A", "B"] : List String).getD 1 "") :=
  wrapperMarkets_game_id ⟨["A", "B"], [⟨"", ""⟩]⟩
    (buttonMarket ("A" ++ " vs " ++ "B") 0 ⟨"", ""⟩) (by decide) (by decide)

/-- C10: a wrapper is skipped whenever the trimmed text of its first or
second team label is empty, even with two or more label nodes present. -/
theorem wrapperMarkets_blank_label_skip (w : GameWrapper)
    (_hlen : 2 ≤ w.labels.length)
    (h : trimS (w.labels.getD 0 "") = "" ∨ trimS (w.labels.getD 1 "") = "") :
    wrapperMarkets w = [] := by
  unfold wrapperMarkets
  dsimp only
  rw [if_pos h]

/-- C10 witness: two labels are present but the first is whitespace-only,
so the wrapper with one button contributes nothing. -/
theorem wrapperMarkets_blank_label_skip_witness :
    wrapperMarkets ⟨["  ", "B"], [⟨"+100", "-110"⟩]⟩ = [] :=
  wrapperMarkets_blank_label_skip ⟨["  ", "B"], [⟨"+100", "-110"⟩]⟩
    (by decide) (Or.inl (by decide))

theorem stripped_eq_one_trim (t : List Char) (h : atMostOneSignCore t = true) :
    strippedOdds t
      = (if startsWithC t '+' then trimPrefixC t '+'
         else if startsWithC t '-' then trimPrefixC t '-'
         else if startsWithC t '−' then trimPrefixC t '−'
         else t) := by
  cases t with
  | nil => rfl
  | cons c r =>
    by_cases hp : c = '+'
    · subst hp
      cases r with
      | nil => rfl
      | cons d r2 =>
        have hd : signChar d = false := by
          simpa [atMostOneSignCore, signChar] using h
        have hd2 : d ≠ '-' ∧ d ≠ '−' := by
          constructor <;> intro he <;> simp [he, signChar] at hd
        simp [strippedOdds, trimPrefixC, startsWithC, hd2.1, hd2.2]
    · by_cases hm : c = '-'
      · subst hm
        cases r with
        | nil => rfl
        | cons d r2 =>
          have hd : signChar d = false := by
            simpa [atMostOneSignCore, signChar] using h
          have hd2 : d ≠ '−' := by
            intro he; simp [he, signChar] at hd
          simp [strippedOdds, trimPrefixC, startsWithC, hd2]
      · by_cases hu : c = '−'
        · subst hu
          simp [strippedOdds, trimPrefixC, startsWithC]
        · simp [strippedOdds, trimPrefixC, startsWithC, hp, hm, hu]

theorem parseOddsCore_eq_specCore (t : List Char)
    (h : atMostOneSignCore t = true) :
    parseOddsCore t = parseOddsSpecCore t := by
  unfold parseOddsCore parseOddsSpecCore
  dsimp only
  rw [stripped_eq_one_trim t h]

/-- C3 counterexample: on "+-5" the code trims TWO recognized prefixes
(the "+" and then the ASCII "-") and returns 5, while trimming exactly
one prefix and negating only on a negativity marker would parse "-5" and
return -5. -/
theorem parseOdds_one_prefix_counterexample :
    parseOdds "+-5" = 5 ∧ parseOddsSpec "+-5" = -5 ∧
    parseOdds "+-5" ≠ parseOddsSpec "+-5" := by decide

/-- C3 (amended): on every input whose trimmed text carries at most one
leading sign marker, the odds normalizer behaves as "trim exactly one of
the three recognized prefixes, then parse, negating iff the trimmed
prefix was a negativity marker"; in general the code instead trims, in
sequence, at most one "+", then at most one ASCII "-", then at most one
Unicode minus, and negates iff the trimmed text started with a
negativity marker. -/
theorem parseOdds_eq_spec_of_atMostOneSign (s : String)
    (h : atMostOneSign s.data = true) :
    parseOdds s = parseOddsSpec s :=
  parseOddsCore_eq_specCore (trimL s.data) h

/-- C3 witness: on the single-marker input "-110" the code and the
one-trim reading agree. -/
theorem parseOdds_eq_spec_witness : parseOdds "-110" = parseOddsSpec "-110" :=
  parseOdds_eq_spec_of_atMostOneSign "-110" (by decide)

theorem entryLine_ne_noMarkets (m : Market) :
    entryLine m ≠ ReportLine.noMarkets := by
  unfold entryLine
  split <;> simp

theorem exists_mem_insertGrouped_self (acc : List (String × List Market))
    (m : Market) : ∃ p ∈ insertGrouped acc m, m ∈ p.2 := by
  induction acc with
  | nil => exact ⟨(m.game, [m]), by simp [insertGrouped]⟩
  | cons hd tl ih =>
    obtain ⟨g, gms⟩ := hd
    by_cases hg : g = m.game
    · exact ⟨(g, gms ++ [m]), by simp [insertGrouped, hg]⟩
    · obtain ⟨p, hp, hm⟩ := ih
      exact ⟨p, by simp [insertGrouped, hg, hp], hm⟩

theorem exists_mem_insertGrouped_mono (acc : List (String × List Market))
    (m n : Market) (h : ∃ p ∈ acc, n ∈ p.2) :
    ∃ p ∈ insertGrouped acc m, n ∈ p.2 := by
  induction acc with
  | nil => simp at h
  | cons hd tl ih =>
    obtain ⟨g, gms⟩ := hd
    obtain ⟨p, hp, hn⟩ := h
    rcases List.mem_cons.mp hp with hp | hp
    · subst hp
      by_cases hg : g = m.game
      · exact ⟨(g, gms ++ [m]), by simp [insertGrouped, hg],
          List.mem_append_left _ hn⟩
      · exact ⟨(g, gms), by simp [insertGrouped, hg], hn⟩
    · by_cases hg : g = m.game
      · exact ⟨p, by simp [insertGrouped, hg, hp], hn⟩
      · obtain ⟨q, hq, hn2⟩ := ih ⟨p, hp, hn⟩
        exact ⟨q, by simp [insertGrouped, hg, hq], hn2⟩

theorem exists_mem_foldl_insertGrouped (ms : List Market) :
    ∀ (acc : List (String × List Market)) (m : Market),
      (m ∈ ms ∨ ∃ p ∈ acc, m ∈ p.2) →
      ∃ p ∈ ms.foldl insertGrouped acc, m ∈ p.2 := by
  induction ms with
  | nil =>
    intro acc m h
    simpa using h.resolve_left (by simp)
  | cons x tl ih =>
    intro acc m h
    rw [List.foldl_cons]
    apply ih
    rcases h with h | hacc
    · rcases List.mem_cons.mp h with h | h
      · subst h
        exact Or.inr (exists_mem_insertGrouped_self acc m)
      · exact Or.inl h
    · exact Or.inr (exists_mem_insertGrouped_mono acc x m hacc)

theorem exists_mem_groupByGame (ms : List Market) (m : Market) (h : m ∈ ms) :
    ∃ p ∈ groupByGame ms, m ∈ p.2 :=
  exists_mem_foldl_insertGrouped ms [] m (Or.inl h)

/-- C9: the report prints "No markets found" exactly when the extracted
collection is empty; otherwise every extracted record appears in the
report as an entry that lists its bet type, side and signed odds, with
its line included exactly when the line is non-zero. -/
theorem printMarkets_report (ms : List Market) :
    (ReportLine.noMarkets ∈ printMarkets ms ↔ ms = []) ∧
    ∀ m ∈ ms, entryLine m ∈ printMarkets ms := by
  constructor
  · constructor
    · intro hmem
      by_contra hne
      have hie : ms.isEmpty = false := by
        cases ms with
        | nil => exact absurd rfl hne
        | cons a tl => rfl
      unfold printMarkets at hmem
      rw [hie] at hmem
      simp only [Bool.false_eq_true, if_false, List.mem_cons,
        List.mem_flatten, List.mem_map] at hmem
      rcases hmem with hmem | ⟨l, ⟨p, _, rfl⟩, hmem⟩
      · exact ReportLine.noConfusion hmem
      · simp only [List.mem_cons, List.mem_append, List.mem_map,
          List.mem_singleton] at hmem
        rcases hmem with h | h | ⟨n, _, h⟩ | h | h
        · exact ReportLine.noConfusion h
        · exact ReportLine.noConfusion h
        · exact entryLine_ne_noMarkets n h
        · exact ReportLine.noConfusion h
        · simp at h
    · intro h
      subst h
      simp [printMarkets]
  · intro m hm
    have hie : ms.isEmpty = false := by
      cases ms with
      | nil => simp at hm
      | cons a tl => rfl
    unfold printMarkets
    rw [hie]
    simp only [Bool.false_eq_true, if_false]
    apply List.mem_cons_of_mem
    obtain ⟨p, hp, hmp⟩ := exists_mem_groupByGame ms m hm
    apply List.mem_flatten.mpr
    refine ⟨_, List.mem_map_of_mem _ hp, ?_⟩
    simp only [List.mem_cons, List.mem_append, List.mem_map]
    exact Or.inr (Or.inr (Or.inl ⟨m, hmp, rfl⟩))

/-- C9 witness: the report for a one-record collection lists that
record's entry line. -/
theorem printMarkets_report_witness :
    entryLine defaultMarket ∈ printMarkets [defaultMarket] :=
  (printMarkets_report [defaultMarket]).2 defaultMarket (by simp)

end Scrapport
